import Mathlib

/-!
Verification of the news-screening pipeline in `news_screener.py`.

The pipeline's core components are embedded shallowly:

* the Metadata Detector `is_new_metadata_format`,
* the Article Segmenter `extract_articles_from_docx` (the docx reading
  itself is the external Paragraph Source; the embedding takes the ordered
  list of non-empty trimmed text blocks as input),
* the Location Normalizer `normalize_location`,
* the Classification Oracle Adapter `analyze_article_with_kimi`
  (the network call and the JSON decoder are external collaborators,
  passed in as explicit inputs),
* the Deduplicator `deduplicate_results`,
* the Publication Orderer (`get_sort_key` and the grouping loop of
  `create_output_docx`, whose document-writing side effects are modelled
  by the ordered list of records it emits).

Python strings are Lean `String`s, Python lists are Lean `List`s,
Python dicts holding the article / classification records are Lean
structures (keys that the source reads with `.get` are `Option` fields).
-/

/-! ### Metadata Detector (news_screener.py, lines 22-26) -/

/-- `text.count('|')` of the source: number of occurrences of `'|'`. -/
def pipeCount (text : String) : Nat :=
  text.toList.count '|'

/-- `is_new_metadata_format`: a block is a metadata line iff it has at least
two `'|'` separators; the empty string (falsy in Python) returns `False`. -/
def is_new_metadata_format (text : String) : Bool :=
  if text = "" then false
  else decide (pipeCount text ≥ 2)

/-! ### Section extraction (news_screener.py, lines 74-79)

`metadata.split('|')[0].strip().split()` is modelled at character level:
`takeWhile (· ≠ '|')` is the part before the first separator, trimming drops
surrounding whitespace, and `splitWsAux` splits the rest into maximal
whitespace-free words (Python's no-argument `split`, which never produces
empty tokens). -/

/-- Python `str.split()` with no separator: maximal runs of
non-whitespace characters, in order. -/
def splitWsAux : List Char → List Char → List (List Char)
  | [], acc => if acc = [] then [] else [acc.reverse]
  | c :: cs, acc =>
    if c.isWhitespace then
      if acc = [] then splitWsAux cs [] else acc.reverse :: splitWsAux cs []
    else splitWsAux cs (c :: acc)

/-- `_extract_section_from_metadata`: last whitespace-delimited token of the
part before the first `'|'`, or `"Unknown"` when fewer than 3 tokens. -/
def extract_section_from_metadata (metadata : String) : String :=
  let firstField := metadata.toList.takeWhile (fun c => c ≠ '|')
  let trimmed :=
    ((firstField.dropWhile Char.isWhitespace).reverse.dropWhile Char.isWhitespace).reverse
  let parts := splitWsAux trimmed []
  if parts.length ≥ 3 then String.mk (parts.getLastD []) else "Unknown"

/-! ### Article records and the Segmenter (news_screener.py, lines 28-72) -/

/-- The article dict built by the Segmenter.  `sectionLabel` is the
source's `'section'` key (`section` is a reserved word in Lean). -/
structure Article where
  title : String
  metadata : String
  content_paragraphs : List String
  content : String
  sectionLabel : String
deriving Repr, DecidableEq

/-- `current_article['content_paragraphs'].append(line)`. -/
def addContent (cur : Option Article) (line : String) : Option Article :=
  match cur with
  | some a => some { a with content_paragraphs := a.content_paragraphs ++ [line] }
  | none => none

/-- `current_article['content'] = ' '.join(current_article['content_paragraphs'])`,
performed once the article's paragraph collection is complete. -/
def finishArticle (a : Article) : Article :=
  { a with content := String.intercalate " " a.content_paragraphs }

/--
The Segmenter's scanning loops (lines 40-67), written as a single pass over
the remaining suffix of the block list.  The correspondence with the source:

* the index `i` corresponds to the remaining suffix `l` of the block list;
* `prev` is the block at `i-1` (initially the empty string, matching
  `paragraphs[i-1] if i >= 1 else ""`);
* `collecting = true` corresponds to control being inside the inner
  `while` loop that appends content paragraphs, `collecting = false` to the
  outer scan loop;
* the inner loop's break test `i + 1 < n and is_new_metadata_format(paragraphs[i+1])`
  is the one-block lookahead on `rest`; when it fires, the current block is
  re-examined by the outer-loop logic exactly as the source re-examines
  `paragraphs[i]` after the `break`.
-/
def extractGo : List String → String → Bool → Option Article → List Article → List Article
  | [], _, _, cur, acc =>
    -- end of input: "Don't forget the last article"
    (match cur with
     | some a => acc ++ [finishArticle a]
     | none => acc)
  | line :: rest, prev, collecting, cur, acc =>
    if collecting ∧ ¬(rest ≠ [] ∧ is_new_metadata_format (rest.headD "") = true) then
      -- inner loop, no break: consume this block as a content paragraph
      extractGo rest line true (addContent cur line) acc
    else if is_new_metadata_format line then
      -- outer loop, metadata line: close the open article, open a new one
      extractGo rest line true
        (some { title := prev, metadata := line, content_paragraphs := [],
                content := "", sectionLabel := extract_section_from_metadata line })
        (match cur with
         | some a => acc ++ [finishArticle a]
         | none => acc)
    else
      -- outer loop, prose line: skip (it may become the next title)
      extractGo rest line false cur acc

/-- `extract_articles_from_docx`, as a function of the ordered sequence of
non-empty trimmed text blocks yielded by the Paragraph Source. -/
def extract_articles_from_docx (paragraphs : List String) : List Article :=
  extractGo paragraphs "" false none []

example : extract_articles_from_docx ["A", "m1|x|y", "B", "m2|x|y"] =
    [{ title := "A", metadata := "m1|x|y", content_paragraphs := [],
       content := "", sectionLabel := "Unknown" },
     { title := "B", metadata := "m2|x|y", content_paragraphs := [],
       content := "", sectionLabel := "Unknown" }] := by decide

example : extract_articles_from_docx ["m1|x|y", "m2|x|y"] =
    [{ title := "", metadata := "m1|x|y", content_paragraphs := ["m2|x|y"],
       content := "m2|x|y", sectionLabel := "Unknown" }] := by decide

example : extract_articles_from_docx ["hdr", "A", "m 1 2|x|y", "c1", "c2"] =
    [{ title := "A", metadata := "m 1 2|x|y", content_paragraphs := ["c1", "c2"],
       content := "c1 c2", sectionLabel := "2" }] := by decide

/-! ### Location Normalizer (news_screener.py, lines 81-140) -/

/-- Python `str.lower()` (the strings in the alias table and the canonical
labels are ASCII or Chinese, on which ASCII lowercasing agrees with
Python's). -/
def strLower (s : String) : String :=
  String.mk (s.toList.map Char.toLower)

/-- Python `a in b`: `a` occurs as a contiguous substring of `b`. -/
def strIn (a b : String) : Prop :=
  a.toList <:+: b.toList

instance (a b : String) : Decidable (strIn a b) := by
  unfold strIn; infer_instance

/-- The `location_map` alias table, in its source (insertion) order: Python
dicts iterate in insertion order, and the first matching entry wins. -/
def location_map : List (String × String) := [
  -- Americas
  ("美国", "United States"), ("美國", "United States"), ("America", "United States"),
  ("Alaska", "United States"), ("阿拉斯加", "United States"),
  ("华盛顿", "United States"), ("華盛頓", "United States"), ("Washington", "United States"),
  -- Russia
  ("俄罗斯", "Russia"), ("俄羅斯", "Russia"), ("莫斯科", "Russia"), ("Moscow", "Russia"),
  -- Europe (including Ukraine-related terms)
  ("欧洲", "Europe"), ("歐洲", "Europe"), ("欧盟", "Europe"), ("歐盟", "Europe"),
  ("乌克兰", "Europe"), ("烏克蘭", "Europe"), ("Ukraine", "Europe"),
  ("基辅", "Europe"), ("基輔", "Europe"), ("Kiev", "Europe"), ("Kyiv", "Europe"),
  ("德国", "Europe"), ("德國", "Europe"), ("Germany", "Europe"),
  ("法国", "Europe"), ("法國", "Europe"), ("France", "Europe"),
  ("英国", "Europe"), ("英國", "Europe"), ("UK", "Europe"), ("Britain", "Europe"),
  ("意大利", "Europe"), ("Italy", "Europe"),
  ("西班牙", "Europe"), ("Spain", "Europe"),
  ("葡萄牙", "Europe"), ("Portugal", "Europe"),
  ("希腊", "Europe"), ("希臘", "Europe"), ("Greece", "Europe"),
  ("土耳其", "Europe"), ("Turkey", "Europe"),
  ("塞尔维亚", "Europe"), ("塞爾維亞", "Europe"), ("Serbia", "Europe"),
  ("布鲁塞尔", "Europe"), ("布魯塞爾", "Europe"), ("Brussels", "Europe"),
  -- Middle East
  ("以色列", "Middle East"), ("Israel", "Middle East"),
  ("巴勒斯坦", "Middle East"), ("Palestine", "Middle East"),
  ("加沙", "Middle East"), ("Gaza", "Middle East"),
  ("埃及", "Middle East"), ("Egypt", "Middle East"),
  -- Southeast Asia
  ("新加坡", "Southeast Asia"), ("Singapore", "Southeast Asia"),
  ("菲律宾", "Southeast Asia"), ("菲律賓", "Southeast Asia"), ("Philippines", "Southeast Asia"),
  ("马尼拉", "Southeast Asia"), ("馬尼拉", "Southeast Asia"), ("Manila", "Southeast Asia"),
  -- Japan
  ("日本", "Japan"), ("大阪", "Japan"), ("Osaka", "Japan"), ("道頓堀", "Japan"),
  ("东京", "Japan"), ("東京", "Japan"), ("Tokyo", "Japan"),
  -- Korea
  ("韩国", "Korea"), ("韓國", "Korea"), ("South Korea", "Korea"),
  ("朝鲜", "Korea"), ("朝鮮", "Korea"), ("North Korea", "Korea"),
  -- China
  ("中国", "China"), ("中國", "China"), ("China", "China")]

/-- `normalize_location`: first an exact case-insensitive pass over the
alias table, then a partial pass accepting either string contained in the
other; if nothing matches the input is returned unchanged. -/
def normalize_location (location : String) : String :=
  match location_map.find? (fun kv => strLower kv.1 == strLower location) with
  | some kv => kv.2
  | none =>
    match location_map.find?
        (fun kv => decide (strIn (strLower kv.1) (strLower location)) ||
                   decide (strIn (strLower location) (strLower kv.1))) with
    | some kv => kv.2
    | none => location

example : normalize_location "東京" = "Japan" := by decide
example : normalize_location "Tokyo" = "Japan" := by decide
example : normalize_location "china" = "China" := by decide
example : normalize_location "Korea" = "Korea" := by decide
example : normalize_location "Mars" = "Mars" := by decide

/-- The eight canonical region values appearing in the alias table
(the right-hand sides of `location_map`). -/
def canonical_values : List String :=
  ["United States", "Russia", "Europe", "Middle East", "Southeast Asia",
   "Japan", "Korea", "China"]

/-! ### Classification records (news_screener.py, lines 210-260)

The classification dict returned by `analyze_article_with_kimi`.  The keys
the source reads unconditionally are plain fields; `main_location` and
`topic_key`, which the source reads with `.get`/a presence test, are
`Option` fields.  The nested `"analysis"` sub-dict of per-dimension scores
is the `scores` field. -/

/-- The `"analysis"` sub-dict: the six 5W1H sub-scores. -/
structure SubScores where
  who_score : Int
  what_score : Int
  when_score : Int
  where_score : Int
  why_score : Int
  how_score : Int
deriving Repr, DecidableEq

/-- The full classification dict. -/
structure Classification where
  is_hard_news : Bool
  overall_score : Int
  scores : SubScores
  missing_elements : List String
  recommendation : String
  first_three_paragraphs_analysis : String
  topic_summary : String
  main_location : Option String
  is_tech_news : Bool
  topic_key : Option String
deriving Repr, DecidableEq

/-- Outcome of the external call
`self.client.chat.completions.create(...)` followed by
`completion.choices[0].message.content`: either an exception or a raw
response text. -/
inductive CallOutcome where
  | raised (msg : String)
  | responded (text : String)
deriving Repr, DecidableEq

/-- `re.search(r'\x7b.*\x7d', response_text, re.DOTALL)`: with a greedy
`.*` that may span newlines, the match (when it exists) runs from the first
opening brace to the last closing brace after it, i.e. the match exists iff
the first `'\x7b'` occurs strictly before the last `'\x7d'`. -/
def jsonSearch (s : String) : Option String :=
  let l := s.toList
  match l.findIdx? (fun c => c == '{'),
        (l.reverse.findIdx? (fun c => c == '}')).map (fun k => l.length - 1 - k) with
  | some i, some j => if i < j then some (String.mk ((l.drop i).take (j - i + 1))) else none
  | _, _ => none

example : jsonSearch "xx{a}y{b}z" = some "{a}y{b}" := by decide
example : jsonSearch "no braces" = none := by decide
example : jsonSearch "\x7d\x7b" = none := by decide

/--
`analyze_article_with_kimi` (lines 199-260), as a function of the external
call's outcome and of the external JSON decoder (`json.loads` applied to
the matched substring, together with reading the decoded dict into a
`Classification`; `Except.error e` models `json.loads` raising with
message `e`).  The prompt construction (lines 147-197) only feeds the
external call and does not affect the returned record.

* a raised call lands in the `except` handler: complete zero fallback with
  `topic_key = "error"` and the error text in `recommendation`;
* no regex match: complete zero fallback with `topic_key = "unknown"`;
* a match whose decoding raises: the exception propagates to the same
  `except` handler as a transport error;
* a decoded classification is returned with `main_location` normalized
  when present.
-/
def analyze_article_with_kimi (call : CallOutcome)
    (jsonLoads : String → Except String Classification) : Classification :=
  match call with
  | .responded response_text =>
    match jsonSearch response_text with
    | some json_str =>
      match jsonLoads json_str with
      | .ok analysis =>
          { analysis with main_location := analysis.main_location.map normalize_location }
      | .error e =>
          { is_hard_news := false, overall_score := 0,
            scores := { who_score := 0, what_score := 0, when_score := 0,
                        where_score := 0, why_score := 0, how_score := 0 },
            missing_elements := ["all"],
            recommendation := "Error: " ++ e,
            first_three_paragraphs_analysis := "Error occurred",
            topic_summary := "Error occurred",
            main_location := some "Others", is_tech_news := false,
            topic_key := some "error" }
    | none =>
        { is_hard_news := false, overall_score := 0,
          scores := { who_score := 0, what_score := 0, when_score := 0,
                      where_score := 0, why_score := 0, how_score := 0 },
          missing_elements := ["all"],
          recommendation := "API response parsing failed",
          first_three_paragraphs_analysis := "Unable to analyze",
          topic_summary := "Unable to summarize",
          main_location := some "Others", is_tech_news := false,
          topic_key := some "unknown" }
  | .raised e =>
      { is_hard_news := false, overall_score := 0,
        scores := { who_score := 0, what_score := 0, when_score := 0,
                    where_score := 0, why_score := 0, how_score := 0 },
        missing_elements := ["all"],
        recommendation := "Error: " ++ e,
        first_three_paragraphs_analysis := "Error occurred",
        topic_summary := "Error occurred",
        main_location := some "Others", is_tech_news := false,
        topic_key := some "error" }

/-- A model of `json.loads` on input that is not valid JSON: it raises
`json.JSONDecodeError` (here, for a brace-delimited substring whose inside
is not JSON, such as `"{not json}"`). -/
def failDecode : String → Except String Classification :=
  fun _ => .error "Expecting value: line 1 column 2 (char 1)"

/-! ### Per-article result records (news_screener.py, lines 287-300)

Of the result dict built by `process_document` the later stages read only
`res["analysis"]` and `res["article_index"]` (the `article_info` block and
the timestamp are carried along for the output documents only), so the
record is modelled by those two fields.  `article_index` comes from
`enumerate(articles, 1)` and is therefore distinct across one run's
records. -/

structure ResultRec where
  analysis : Classification
  article_index : Nat
deriving Repr, DecidableEq

/-! ### Deduplicator (news_screener.py, lines 317-342) -/

/-- `res["analysis"].get("topic_key", f"unknown_{res['article_index']}")`. -/
def topicKeyOf (r : ResultRec) : String :=
  r.analysis.topic_key.getD ("unknown_" ++ Nat.repr r.article_index)

/-- The keys of the `defaultdict` in their insertion order (Python dicts
iterate in first-insertion order). -/
def dedupKeys (results : List ResultRec) : List String :=
  results.foldl (fun ks r => if topicKeyOf r ∈ ks then ks else ks ++ [topicKeyOf r]) []

/-- `groups[topic_key]`: the members with this key, in input order. -/
def groupOf (results : List ResultRec) (k : String) : List ResultRec :=
  results.filter (fun r => topicKeyOf r == k)

/-- The order used by
`group.sort(key=lambda x: (-x["analysis"]["overall_score"], x["article_index"]))`:
lexicographic on the pair (negated score, index). -/
def dedupLE (a b : ResultRec) : Prop :=
  -a.analysis.overall_score < -b.analysis.overall_score ∨
    (-a.analysis.overall_score = -b.analysis.overall_score ∧
      a.article_index ≤ b.article_index)

instance : DecidableRel dedupLE := by
  unfold dedupLE; infer_instance

instance : IsTotal ResultRec dedupLE := by
  constructor; intro a b; unfold dedupLE; omega

instance : IsTrans ResultRec dedupLE := by
  constructor; intro a b c; unfold dedupLE; omega

/-- `deduplicate_results`: group by `topic_key` (insertion-ordered keys),
stably sort each group by (score descending, index ascending) and keep the
head.  `List.insertionSort` is a stable sort, like Python's `list.sort`. -/
def deduplicate_results (results : List ResultRec) : List ResultRec :=
  (dedupKeys results).filterMap
    (fun k => (List.insertionSort dedupLE (groupOf results k)).head?)

/-! ### Publication Orderer (news_screener.py, lines 344-441) -/

/-- The `location_order` rank table of `create_output_docx`. -/
def location_order : List (String × Nat) := [
  ("United States", 0), ("Russia", 1), ("Europe", 2), ("Middle East", 3),
  ("Southeast Asia", 4), ("Japan", 5), ("Korea", 6), ("China", 7),
  ("Others", 8),
  ("Tech", 9)]  -- Tech news goes last

/-- `location_order.get(location, 8)`. -/
def lookupOrder (location : String) : Nat :=
  ((location_order.find? (fun kv => kv.1 == location)).map Prod.snd).getD 8

/-- `get_sort_key` (lines 364-372). -/
def get_sort_key (result : ResultRec) : Nat × Nat :=
  if result.analysis.is_tech_news then
    (9, result.article_index)  -- Tech news last
  else
    (lookupOrder (normalize_location (result.analysis.main_location.getD "Others")),
     result.article_index)

/-- The order induced by Python's `sorted(..., key=get_sort_key)`:
lexicographic on the key pair. -/
def orderLE (a b : ResultRec) : Prop :=
  (get_sort_key a).1 < (get_sort_key b).1 ∨
    ((get_sort_key a).1 = (get_sort_key b).1 ∧ (get_sort_key a).2 ≤ (get_sort_key b).2)

instance : DecidableRel orderLE := by
  unfold orderLE; infer_instance

instance : IsTotal ResultRec orderLE := by
  constructor; intro a b; unfold orderLE; omega

instance : IsTrans ResultRec orderLE := by
  constructor; intro a b c; unfold orderLE; omega

/-- The in-place normalization pass over `selected_results`
(lines 374-377), applied to one record. -/
def normalizeResult (r : ResultRec) : ResultRec :=
  { r with analysis :=
      { r.analysis with main_location := r.analysis.main_location.map normalize_location } }

/-- `sorted_selected = sorted(selected_results, key=get_sort_key)`, after
the normalization pass. -/
def sorted_selected (selected : List ResultRec) : List ResultRec :=
  List.insertionSort orderLE (selected.map normalizeResult)

/-- `display_location` (lines 408-411): the bucket label a record is
grouped under. -/
def display_location (r : ResultRec) : String :=
  if r.analysis.is_tech_news then "Tech News" else r.analysis.main_location.getD "Others"

/-- `location_display_order` (line 414). -/
def location_display_order : List String :=
  ["United States", "Russia", "Europe", "Middle East", "Southeast Asia",
   "Japan", "Korea", "China", "Others", "Tech News"]

/-- The ordered sequence of selected records emitted into the output
document (lines 404-438): records are grouped by `display_location` (the
groups keep the sorted order) and the groups are emitted following
`location_display_order`; a label with no group is skipped, and a record
whose label is outside the display list is never emitted. -/
def grouped_output (selected : List ResultRec) : List ResultRec :=
  location_display_order.flatMap
    (fun loc => (sorted_selected selected).filter (fun r => display_location r == loc))

/-! ### Decimal rendering is injective

The Deduplicator's synthesized group key `f"unknown_{index}"` separates two
distinct indices only because decimal rendering is injective.  `Nat.repr`
has no injectivity lemma in the library, so we recover the number from its
digit string. -/

/-- Read a decimal digit string back into a number. -/
def decodeDigits (l : List Char) : Nat :=
  l.foldl (fun acc c => acc * 10 + (c.toNat - 48)) 0

/-! ### Concrete records used in claim instances -/

/-- A successful hard-news classification with the given score and topic
key (used in concrete deduplication instances). -/
def classWith (score : Int) (key : String) : Classification :=
  { is_hard_news := true, overall_score := score,
    scores := { who_score := 4, what_score := 4, when_score := 4,
                where_score := 4, why_score := 4, how_score := 4 },
    missing_elements := [], recommendation := "ok",
    first_three_paragraphs_analysis := "ok", topic_summary := "ok",
    main_location := some "Japan", is_tech_news := false,
    topic_key := some key }

/-- Two classified articles covering the same event with scores 18
and 25. -/
def recA : ResultRec := { analysis := classWith 18 "osaka_fire", article_index := 1 }

def recB : ResultRec := { analysis := classWith 25 "osaka_fire", article_index := 2 }

/-- The parse-failure fallback classification substituted by
`analyze_article_with_kimi` when no JSON payload is found (its `topic_key`
is the present sentinel `"unknown"`). -/
def unknownFallbackClass : Classification :=
  { is_hard_news := false, overall_score := 0,
    scores := { who_score := 0, what_score := 0, when_score := 0,
                where_score := 0, why_score := 0, how_score := 0 },
    missing_elements := ["all"],
    recommendation := "API response parsing failed",
    first_three_paragraphs_analysis := "Unable to analyze",
    topic_summary := "Unable to summarize",
    main_location := some "Others", is_tech_news := false,
    topic_key := some "unknown" }

/-- Two distinct articles that both carry the parse-failure sentinel. -/
def rFail1 : ResultRec := { analysis := unknownFallbackClass, article_index := 1 }

def rFail2 : ResultRec := { analysis := unknownFallbackClass, article_index := 2 }

/-- The transport/decoding-failure fallback classification substituted by
`analyze_article_with_kimi` when the call, or the decoding of a found
payload, raises with message `e`. -/
def errorFallbackClass (e : String) : Classification :=
  { is_hard_news := false, overall_score := 0,
    scores := { who_score := 0, what_score := 0, when_score := 0,
                where_score := 0, why_score := 0, how_score := 0 },
    missing_elements := ["all"],
    recommendation := "Error: " ++ e,
    first_three_paragraphs_analysis := "Error occurred",
    topic_summary := "Error occurred",
    main_location := some "Others", is_tech_news := false,
    topic_key := some "error" }

/-- A classification whose `topic_key` entry is absent altogether. -/
def noKeyClass : Classification := { unknownFallbackClass with topic_key := none }

def rNoKey1 : ResultRec := { analysis := noKeyClass, article_index := 1 }

def rNoKey2 : ResultRec := { analysis := noKeyClass, article_index := 2 }

/-- A technology-flagged record whose main location is China. -/
def techChinaClass : Classification :=
  { classWith 22 "spacex_launch" with is_tech_news := true, main_location := some "China" }

def recTechChina : ResultRec := { analysis := techChinaClass, article_index := 1 }

/-- A plain (non-tech) record located in the United States. -/
def recUS : ResultRec :=
  { analysis := { classWith 21 "us_infra" with main_location := some "Washington" },
    article_index := 2 }

theorem toDigitsCore_append (f : Nat) :
    ∀ (n : Nat) (ds : List Char),
      Nat.toDigitsCore 10 f n ds = Nat.toDigitsCore 10 f n [] ++ ds := by
  induction f with
  | zero => intro n ds; simp [Nat.toDigitsCore]
  | succ f ih =>
    intro n ds
    simp only [Nat.toDigitsCore]
    by_cases h : n / 10 = 0
    · simp [h]
    · simp only [h, if_false]
      rw [ih (n / 10) [Nat.digitChar (n % 10)], ih (n / 10) (Nat.digitChar (n % 10) :: ds)]
      simp

theorem digitChar_decode {m : Nat} (h : m < 10) : (Nat.digitChar m).toNat - 48 = m := by
  interval_cases m <;> decide

theorem decode_toDigitsCore (f : Nat) :
    ∀ n : Nat, n < 10 ^ f → decodeDigits (Nat.toDigitsCore 10 f n []) = n := by
  induction f with
  | zero =>
    intro n hn
    have : n = 0 := by simpa using hn
    subst this
    simp [Nat.toDigitsCore, decodeDigits]
  | succ f ih =>
    intro n hn
    simp only [Nat.toDigitsCore]
    by_cases h : n / 10 = 0
    · have hn10 : n < 10 := by omega
      have hmodn : n % 10 = n := Nat.mod_eq_of_lt hn10
      simp [h, decodeDigits, hmodn, digitChar_decode hn10]
    · simp only [h, if_false]
      rw [toDigitsCore_append f (n / 10) [Nat.digitChar (n % 10)]]
      have hdiv : n / 10 < 10 ^ f :=
        (Nat.div_lt_iff_lt_mul (by omega)).mpr (by rw [← pow_succ]; exact hn)
      have hrec := ih (n / 10) hdiv
      have hmod : n % 10 < 10 := Nat.mod_lt _ (by omega)
      simp only [decodeDigits] at hrec ⊢
      rw [List.foldl_append, hrec]
      simp [digitChar_decode hmod]
      omega

/-- Recover `n` from `Nat.repr n`. -/
theorem decode_repr (n : Nat) : decodeDigits (Nat.repr n).data = n := by
  have hlt : n < 10 ^ (n + 1) := by
    calc n < 10 ^ n := Nat.lt_pow_self (by omega) n
    _ ≤ 10 ^ (n + 1) := Nat.pow_le_pow_right (by omega) (by omega)
  have : (Nat.repr n).data = Nat.toDigitsCore 10 (n + 1) n [] := by
    simp [Nat.repr, Nat.toDigits, List.asString]
  rw [this]
  exact decode_toDigitsCore (n + 1) n hlt

/-- Decimal rendering of naturals is injective. -/
theorem natRepr_injective {m n : Nat} (h : Nat.repr m = Nat.repr n) : m = n := by
  have := congrArg (fun s => decodeDigits s.data) h
  simpa [decode_repr] using this

/-! ### Segmenter lemmas -/

/-- An article already in the accumulator survives to the output. -/
theorem extractGo_acc_mem {a : Article} :
    ∀ (l : List String) (prev : String) (collecting : Bool) (cur : Option Article)
      (acc : List Article), a ∈ acc → a ∈ extractGo l prev collecting cur acc := by
  intro l
  induction l with
  | nil =>
    intro prev collecting cur acc ha
    cases cur <;> simp only [extractGo] <;> simp [ha]
  | cons line rest ih =>
    intro prev collecting cur acc ha
    simp only [extractGo]
    by_cases hc : (collecting = true) ∧
        ¬(rest ≠ [] ∧ is_new_metadata_format (rest.headD "") = true)
    · rw [if_pos hc]; exact ih _ _ _ _ ha
    · rw [if_neg hc]
      by_cases hm : is_new_metadata_format line = true
      · rw [if_pos hm]
        apply ih
        cases cur <;> simp [ha]
      · rw [if_neg hm]; exact ih _ _ _ _ ha

/-- The currently open article is eventually emitted: some output article
carries its metadata line. -/
theorem extractGo_cur_emits :
    ∀ (l : List String) (a : Article) (prev : String) (collecting : Bool)
      (acc : List Article),
      ∃ b ∈ extractGo l prev collecting (some a) acc, b.metadata = a.metadata := by
  intro l
  induction l with
  | nil =>
    intro a prev collecting acc
    refine ⟨finishArticle a, ?_, by simp [finishArticle]⟩
    simp [extractGo]
  | cons line rest ih =>
    intro a prev collecting acc
    simp only [extractGo]
    by_cases hc : (collecting = true) ∧
        ¬(rest ≠ [] ∧ is_new_metadata_format (rest.headD "") = true)
    · rw [if_pos hc]
      simp only [addContent]
      obtain ⟨b, hb, hmeta⟩ := ih { a with content_paragraphs := a.content_paragraphs ++ [line] }
        line true acc
      exact ⟨b, hb, hmeta⟩
    · rw [if_neg hc]
      by_cases hm : is_new_metadata_format line = true
      · rw [if_pos hm]
        refine ⟨finishArticle a, ?_, by simp [finishArticle]⟩
        exact extractGo_acc_mem _ _ _ _ _ (by simp)
      · rw [if_neg hm]; exact ih a line false acc

/--
Every detector-positive block that is not immediately preceded by another
detector-positive block ends up as the metadata line of an emitted
article.  The invariant hypothesis states that while the inner collection
loop is running, either the previous block was the metadata line that
opened it, or the current block is not detector-positive (each consumed
content block was vetted by the lookahead of the preceding step).
-/
theorem extractGo_meta_assigned :
    ∀ (l : List String) (prev : String) (collecting : Bool) (cur : Option Article)
      (acc : List Article) (j : Nat),
      (collecting = true → is_new_metadata_format prev = true ∨
        is_new_metadata_format (l.headD "") = false) →
      j < l.length →
      is_new_metadata_format (l.getD j "") = true →
      is_new_metadata_format (if j = 0 then prev else l.getD (j - 1) "") = false →
      ∃ a ∈ extractGo l prev collecting cur acc, a.metadata = l.getD j "" := by
  intro l
  induction l with
  | nil => intro prev collecting cur acc j _ hj; simp at hj
  | cons line rest ih =>
    intro prev collecting cur acc j hinv hj hmeta hpred
    simp only [extractGo]
    by_cases hc : (collecting = true) ∧
        ¬(rest ≠ [] ∧ is_new_metadata_format (rest.headD "") = true)
    · rw [if_pos hc]
      cases j with
      | zero =>
        exfalso
        simp only [List.getD_cons_zero] at hmeta
        simp at hpred
        rcases hinv hc.1 with hp | hl
        · rw [hp] at hpred; exact Bool.noConfusion hpred
        · simp only [List.headD_cons] at hl; rw [hmeta] at hl; exact Bool.noConfusion hl
      | succ k =>
        simp only [List.getD_cons_succ] at hmeta ⊢
        apply ih line true (addContent cur line) acc k ?_ ?_ hmeta ?_
        · intro _
          by_cases hr : rest = []
          · subst hr; right; simp [is_new_metadata_format]
          · right
            rcases not_and_or.mp hc.2 with h1 | h2
            · exact absurd hr h1
            · simpa using h2
        · simpa using hj
        · cases k with
          | zero => simpa using hpred
          | succ k2 => simpa using hpred
    · rw [if_neg hc]
      by_cases hm : is_new_metadata_format line = true
      · rw [if_pos hm]
        cases j with
        | zero =>
          simp only [List.getD_cons_zero]
          exact extractGo_cur_emits rest _ line true _
        | succ k =>
          simp only [List.getD_cons_succ] at hmeta ⊢
          apply ih line true _ _ k (fun _ => Or.inl hm) (by simpa using hj) hmeta ?_
          cases k with
          | zero => simpa using hpred
          | succ k2 => simpa using hpred
      · rw [if_neg hm]
        cases j with
        | zero =>
          simp only [List.getD_cons_zero] at hmeta
          exact absurd hmeta hm
        | succ k =>
          simp only [List.getD_cons_succ] at hmeta ⊢
          apply ih line false cur acc k (by intro h; cases h) (by simpa using hj) hmeta ?_
          cases k with
          | zero => simpa using hpred
          | succ k2 => simpa using hpred

/--
Invariant of the Segmenter's scan: every emitted article carries a
detector-positive metadata line, and its content paragraphs form a
contiguous run of the input blocks.  While the collection loop is running
(`collecting = true`), the open article's paragraphs are exactly the blocks
between a fixed position and the current one, so each consumed block
extends that run by one.
-/
theorem extractGo_output_invariant (p : List String) :
    ∀ (l : List String) (prev : String) (collecting : Bool) (cur : Option Article)
      (acc : List Article),
      l <:+ p →
      (∀ b ∈ acc, is_new_metadata_format b.metadata = true ∧ b.content_paragraphs <:+: p) →
      (collecting = false → ∀ a, cur = some a →
        is_new_metadata_format a.metadata = true ∧ a.content_paragraphs <:+: p) →
      (collecting = true → ∃ a, cur = some a ∧ is_new_metadata_format a.metadata = true ∧
        ∃ pre, p = pre ++ a.content_paragraphs ++ l) →
      ∀ b ∈ extractGo l prev collecting cur acc,
        is_new_metadata_format b.metadata = true ∧ b.content_paragraphs <:+: p := by
  intro l
  induction l with
  | nil =>
    intro prev collecting cur acc hsuf hacc hscan hcoll b hb
    cases collecting with
    | false =>
      cases hcur : cur with
      | none => rw [hcur] at hb; simp only [extractGo] at hb; exact hacc b hb
      | some a =>
        rw [hcur] at hb; simp only [extractGo] at hb
        rcases List.mem_append.mp hb with h | h
        · exact hacc b h
        · have ha := hscan rfl a hcur
          have : b = finishArticle a := by simpa using h
          subst this
          simpa [finishArticle] using ha
    | true =>
      obtain ⟨a, hcur, hameta, pre, hpre⟩ := hcoll rfl
      rw [hcur] at hb; simp only [extractGo] at hb
      rcases List.mem_append.mp hb with h | h
      · exact hacc b h
      · have : b = finishArticle a := by simpa using h
        subst this
        refine ⟨by simpa [finishArticle] using hameta, pre, [], ?_⟩
        simpa [finishArticle] using hpre.symm
  | cons line rest ih =>
    intro prev collecting cur acc hsuf hacc hscan hcoll b hb
    have hsuf' : rest <:+ p := by
      obtain ⟨t, ht⟩ := hsuf
      exact ⟨t ++ [line], by simpa using ht⟩
    simp only [extractGo] at hb
    by_cases hc : (collecting = true) ∧
        ¬(rest ≠ [] ∧ is_new_metadata_format (rest.headD "") = true)
    · rw [if_pos hc] at hb
      obtain ⟨a, hcur, hameta, pre, hpre⟩ := hcoll hc.1
      rw [hcur] at hb
      simp only [addContent] at hb
      refine ih line true _ acc hsuf' hacc (by intro h; cases h) ?_ b hb
      intro _
      refine ⟨_, rfl, by simpa using hameta, pre, ?_⟩
      simpa [List.append_assoc] using hpre
    · rw [if_neg hc] at hb
      by_cases hm : is_new_metadata_format line = true
      · rw [if_pos hm] at hb
        have hemitted : ∀ x ∈ (match cur with
            | some a => acc ++ [finishArticle a]
            | none => acc),
            is_new_metadata_format x.metadata = true ∧ x.content_paragraphs <:+: p := by
          cases hcur : cur with
          | none => simpa using hacc
          | some a =>
            intro x hx
            rcases List.mem_append.mp hx with h | h
            · exact hacc x h
            · have : x = finishArticle a := by simpa using h
              subst this
              cases collecting with
              | false =>
                have ha := hscan rfl a hcur
                simpa [finishArticle] using ha
              | true =>
                obtain ⟨a', hcur', hameta', pre', hpre'⟩ := hcoll rfl
                rw [hcur] at hcur'
                cases hcur'
                refine ⟨by simpa [finishArticle] using hameta', pre', line :: rest, hpre'.symm⟩
        refine ih line true _ _ hsuf' hemitted (by intro h; cases h) ?_ b hb
        intro _
        refine ⟨_, rfl, by simpa using hm, ?_⟩
        obtain ⟨t, ht⟩ := hsuf
        exact ⟨t ++ [line], by simpa using ht.symm⟩
      · rw [if_neg hm] at hb
        refine ih line false cur acc hsuf' hacc ?_ (by intro h; cases h) b hb
        intro _ a hcur
        cases collecting with
        | false => exact hscan rfl a hcur
        | true =>
          obtain ⟨a', hcur', hameta', pre', hpre'⟩ := hcoll rfl
          rw [hcur] at hcur'
          cases hcur'
          exact ⟨hameta', pre', line :: rest, hpre'.symm⟩

/-! ### Claim theorems: Detector and Segmenter -/

/-- C8: `is_new_metadata_format text` is true exactly when `text` contains
at least two occurrences of the `'|'` separator, and the empty (Python:
falsy) input yields false. -/
theorem C8_detector_contract :
    (∀ text : String, is_new_metadata_format text = true ↔ 2 ≤ pipeCount text) ∧
    is_new_metadata_format "" = false := by
  refine ⟨fun text => ?_, by decide⟩
  unfold is_new_metadata_format
  by_cases h : text = ""
  · subst h
    simp [pipeCount]
  · simp [h]

/-- C4: on the block sequence `["A","m1|x|y","B","m2|x|y"]`, whose two
metadata blocks are detector-positive, segmentation yields exactly two
articles, titled "A" and "B", carrying those metadata lines, both with
empty content paragraphs. -/
theorem C4_title_backtracking :
    is_new_metadata_format "m1|x|y" = true ∧ is_new_metadata_format "m2|x|y" = true ∧
    extract_articles_from_docx ["A", "m1|x|y", "B", "m2|x|y"] =
      [{ title := "A", metadata := "m1|x|y", content_paragraphs := [],
         content := "", sectionLabel := "Unknown" },
       { title := "B", metadata := "m2|x|y", content_paragraphs := [],
         content := "", sectionLabel := "Unknown" }] := by
  decide

/-- C1 counterexample: on `["m1|x|y","m2|x|y"]` the detector-positive block
`"m2|x|y"` is consumed as a content paragraph of the single emitted
article and is the metadata line of no article, contradicting the claim
that no detector-true block is dropped or consumed into content. -/
theorem C1_counterexample :
    is_new_metadata_format "m2|x|y" = true ∧
    extract_articles_from_docx ["m1|x|y", "m2|x|y"] =
      [{ title := "", metadata := "m1|x|y", content_paragraphs := ["m2|x|y"],
         content := "m2|x|y", sectionLabel := "Unknown" }] ∧
    ((extract_articles_from_docx ["m1|x|y", "m2|x|y"]).map Article.metadata).contains "m2|x|y"
      = false := by
  decide

/-- C1 (amended): every detector-positive block that is the first block or
whose immediate predecessor is not detector-positive is assigned as the
metadata line of some emitted article.  (A detector-positive block
immediately following another detector-positive block can instead be
consumed into the preceding article's content, as `C1_counterexample`
shows.) -/
theorem C1_amended_meta_assigned (p : List String) (j : Nat)
    (hj : j < p.length)
    (hmeta : is_new_metadata_format (p.getD j "") = true)
    (hpred : j = 0 ∨ is_new_metadata_format (p.getD (j - 1) "") = false) :
    ∃ a ∈ extract_articles_from_docx p, a.metadata = p.getD j "" := by
  apply extractGo_meta_assigned p "" false none [] j ?_ hj hmeta ?_
  · intro h; cases h
  · by_cases hj0 : j = 0
    · simp [hj0, is_new_metadata_format]
    · rw [if_neg hj0]
      rcases hpred with h0 | h
      · exact absurd h0 hj0
      · exact h

/-- Witness for `C1_amended_meta_assigned` at the input `["A","m|x|y"]`,
block index 1. -/
theorem C1_amended_witness :
    (1 < (["A", "m|x|y"] : List String).length ∧
      is_new_metadata_format ((["A", "m|x|y"] : List String).getD 1 "") = true ∧
      is_new_metadata_format ((["A", "m|x|y"] : List String).getD 0 "") = false) ∧
    ∃ a ∈ extract_articles_from_docx ["A", "m|x|y"],
      a.metadata = (["A", "m|x|y"] : List String).getD 1 "" :=
  ⟨by decide,
   C1_amended_meta_assigned ["A", "m|x|y"] 1 (by decide) (by decide) (Or.inr (by decide))⟩

/-- C10: every emitted article's metadata line is detector-positive
(articles are only opened at detector-positive blocks), and its content
paragraphs are a contiguous run of the input blocks in their original
order. -/
theorem C10_articles_wellformed (p : List String) (a : Article)
    (ha : a ∈ extract_articles_from_docx p) :
    is_new_metadata_format a.metadata = true ∧ a.content_paragraphs <:+: p := by
  refine extractGo_output_invariant p p "" false none [] (List.suffix_refl p) ?_ ?_ ?_ a ha
  · intro b hb; cases hb
  · intro _ a h; cases h
  · intro h; cases h

/-- Witness for `C10_articles_wellformed` on a concrete document. -/
theorem C10_witness :
    ({ title := "A", metadata := "m|x|y", content_paragraphs := ["c1", "c2"],
       content := "c1 c2", sectionLabel := "Unknown" } : Article) ∈
        extract_articles_from_docx ["hdr", "A", "m|x|y", "c1", "c2"] ∧
    (is_new_metadata_format "m|x|y" = true ∧
      (["c1", "c2"] : List String) <:+: ["hdr", "A", "m|x|y", "c1", "c2"]) :=
  ⟨by decide,
   C10_articles_wellformed ["hdr", "A", "m|x|y", "c1", "c2"]
     { title := "A", metadata := "m|x|y", content_paragraphs := ["c1", "c2"],
       content := "c1 c2", sectionLabel := "Unknown" } (by decide)⟩

/-! ### Claim theorems: Location Normalizer -/

/-- C7: `normalize_location` is idempotent on all nine canonical region
labels. -/
theorem C7_normalize_idempotent :
    normalize_location "United States" = "United States" ∧
    normalize_location "Russia" = "Russia" ∧
    normalize_location "Europe" = "Europe" ∧
    normalize_location "Middle East" = "Middle East" ∧
    normalize_location "Southeast Asia" = "Southeast Asia" ∧
    normalize_location "Japan" = "Japan" ∧
    normalize_location "Korea" = "Korea" ∧
    normalize_location "China" = "China" ∧
    normalize_location "Others" = "Others" := by
  decide

/-- C9: `normalize_location` returns one of the eight canonical alias-table
values or its input unchanged, and in particular only the literal input
`"Others"` normalizes to `"Others"`. -/
theorem C9_normalize_conservative :
    ∀ location : String,
      (normalize_location location ∈ canonical_values ∨
        normalize_location location = location) ∧
      (normalize_location location = "Others" → location = "Others") := by
  intro location
  have hval : ∀ kv ∈ location_map, kv.2 ∈ canonical_values := by decide
  have hmain : normalize_location location ∈ canonical_values ∨
      normalize_location location = location := by
    unfold normalize_location
    cases hfind : location_map.find? (fun kv => strLower kv.1 == strLower location) with
    | some kv => left; exact hval _ (List.mem_of_find?_eq_some hfind)
    | none =>
      cases hfind2 : location_map.find?
          (fun kv => decide (strIn (strLower kv.1) (strLower location)) ||
                     decide (strIn (strLower location) (strLower kv.1))) with
      | some kv => left; exact hval _ (List.mem_of_find?_eq_some hfind2)
      | none => right; rfl
  refine ⟨hmain, fun ho => ?_⟩
  rcases hmain with hmem | heq
  · rw [ho] at hmem
    exact absurd hmem (by decide)
  · rw [← heq, ho]

/-- Witness for `C9_normalize_conservative`: the hypothesis of its second
part is satisfiable only at `"Others"` itself. -/
theorem C9_witness : normalize_location "Others" = "Others" :=
  (C9_normalize_conservative "Others").2 (by decide)

/-! ### Deduplicator lemmas -/

/-- The head of a sorted permutation is a minimal element: characterizes
`group.sort(key=...)` followed by `group[0]`. -/
theorem head_insertionSort_min {α : Type} (r : α → α → Prop) [DecidableRel r]
    [IsTotal α r] [IsTrans α r] (l : List α) (b : α)
    (hb : (List.insertionSort r l).head? = some b) :
    b ∈ l ∧ ∀ x ∈ l, r b x := by
  have hperm := List.perm_insertionSort r l
  have hsorted := List.sorted_insertionSort r l
  cases hs : List.insertionSort r l with
  | nil => rw [hs] at hb; cases hb
  | cons y t =>
    rw [hs] at hb hperm hsorted
    have hby : y = b := by simpa using hb
    subst hby
    refine ⟨hperm.mem_iff.mp (List.mem_cons_self _ _), fun x hx => ?_⟩
    rcases List.mem_cons.mp (hperm.mem_iff.mpr hx) with h | h
    · rw [h]
      exact (total_of r y y).elim id id
    · exact (List.sorted_cons.mp hsorted).1 x h

/-- Auxiliary foldl characterization of the deduplication key list. -/
theorem dedupKeys_foldl_mem :
    ∀ (results : List ResultRec) (ks : List String) (key : String),
      (key ∈ ks ∨ ∃ r ∈ results, topicKeyOf r = key) →
      key ∈ results.foldl
        (fun ks r => if topicKeyOf r ∈ ks then ks else ks ++ [topicKeyOf r]) ks := by
  intro results
  induction results with
  | nil =>
    intro ks key h
    rcases h with h | ⟨r, hr, _⟩
    · exact h
    · cases hr
  | cons x xs ih =>
    intro ks key h
    simp only [List.foldl_cons]
    apply ih
    by_cases hx : topicKeyOf x ∈ ks
    · rw [if_pos hx]
      rcases h with h | ⟨r, hr, hkey⟩
      · exact Or.inl h
      · rcases List.mem_cons.mp hr with rfl | hr'
        · exact Or.inl (hkey ▸ hx)
        · exact Or.inr ⟨r, hr', hkey⟩
    · rw [if_neg hx]
      rcases h with h | ⟨r, hr, hkey⟩
      · exact Or.inl (List.mem_append_left _ h)
      · rcases List.mem_cons.mp hr with rfl | hr'
        · exact Or.inl (hkey ▸ List.mem_append_right _ (List.mem_singleton_self _))
        · exact Or.inr ⟨r, hr', hkey⟩

/-- Every record's topic key occurs among the deduplication keys. -/
theorem mem_dedupKeys {results : List ResultRec} {r : ResultRec} (hr : r ∈ results) :
    topicKeyOf r ∈ dedupKeys results :=
  dedupKeys_foldl_mem results [] (topicKeyOf r) (Or.inr ⟨r, hr, rfl⟩)

/-- Concatenating with a common left factor is cancellable for strings. -/
theorem string_append_left_cancel {a s t : String} (h : a ++ s = a ++ t) : s = t := by
  have hd := congrArg String.data h
  simp only [String.data_append] at hd
  have hst := List.append_cancel_left hd
  cases s; cases t
  exact congrArg String.mk hst

/-- Records are distinct whenever their indices are. -/
theorem nodup_of_index_pairwise {results : List ResultRec}
    (hdist : results.Pairwise (fun a c => a.article_index ≠ c.article_index)) :
    results.Nodup :=
  hdist.imp (fun h heq => h (congrArg ResultRec.article_index heq))

/-! ### Claim theorems: Deduplicator -/

/-- C5: every representative chosen by `deduplicate_results` is a member of
its topic-key group with maximal `overall_score`, ties broken by the
smallest `article_index`; and any permutation of the input (indices held
fixed and pairwise distinct) selects the same representative. -/
theorem C5_dedup_best_deterministic (results results' : List ResultRec)
    (hperm : results.Perm results')
    (hdist : results.Pairwise (fun a c => a.article_index ≠ c.article_index))
    (b : ResultRec) (hb : b ∈ deduplicate_results results) :
    b ∈ groupOf results (topicKeyOf b) ∧
    (∀ x ∈ groupOf results (topicKeyOf b),
      x.analysis.overall_score ≤ b.analysis.overall_score ∧
      (x.analysis.overall_score = b.analysis.overall_score →
        b.article_index ≤ x.article_index)) ∧
    b ∈ deduplicate_results results' := by
  obtain ⟨k, hk, hhead⟩ := List.mem_filterMap.mp hb
  have hmin := head_insertionSort_min dedupLE (groupOf results k) b hhead
  have hbk : topicKeyOf b = k := by
    have := List.mem_filter.mp hmin.1
    exact beq_iff_eq.mp this.2
  subst hbk
  have hbres : b ∈ results := List.mem_of_mem_filter hmin.1
  have hbres' : b ∈ results' := hperm.mem_iff.mp hbres
  have hb' : b ∈ groupOf results' (topicKeyOf b) :=
    List.mem_filter.mpr ⟨hbres', beq_iff_eq.mpr rfl⟩
  refine ⟨hmin.1, fun x hx => ?_, ?_⟩
  · have := hmin.2 x hx
    unfold dedupLE at this
    exact ⟨by omega, fun hs => by omega⟩
  · have hgperm : (groupOf results (topicKeyOf b)).Perm (groupOf results' (topicKeyOf b)) :=
      hperm.filter _
    cases hs : (List.insertionSort dedupLE (groupOf results' (topicKeyOf b))).head? with
    | none =>
      exfalso
      have hnil : List.insertionSort dedupLE (groupOf results' (topicKeyOf b)) = [] :=
        List.head?_eq_none_iff.mp hs
      have hmem : b ∈ List.insertionSort dedupLE (groupOf results' (topicKeyOf b)) :=
        (List.perm_insertionSort dedupLE _).symm.subset hb'
      rw [hnil] at hmem
      cases hmem
    | some b' =>
      have hmin' := head_insertionSort_min dedupLE (groupOf results' (topicKeyOf b)) b' hs
      have hbb' : dedupLE b b' := hmin.2 b' (hgperm.symm.subset hmin'.1)
      have hb'b : dedupLE b' b := hmin'.2 b hb'
      have hb'res : b' ∈ results := hperm.mem_iff.mpr (List.mem_of_mem_filter hmin'.1)
      have hidx : b.article_index = b'.article_index := by
        unfold dedupLE at hbb' hb'b; omega
      have heq : b = b' := by
        by_contra hne
        exact hdist.forall (fun a c h => Ne.symm h) hbres hb'res hne hidx
      subst heq
      exact List.mem_filterMap.mpr ⟨topicKeyOf b, mem_dedupKeys hbres', hs⟩

/-- Witness for `C5_dedup_best_deterministic`: two same-topic articles with
scores 18 and 25; the score-25 one is selected under both input orders. -/
theorem C5_witness :
    recB ∈ deduplicate_results [recA, recB] ∧
    recB ∈ deduplicate_results [recB, recA] :=
  ⟨by decide,
   (C5_dedup_best_deterministic [recA, recB] [recB, recA] (by decide) (by decide)
     recB (by decide)).2.2⟩

/-- An absent-key record forms a singleton deduplication group: its
synthesized key `"unknown_<index>"` matches no other record, provided no
explicit topic key uses the synthesized shape and indices are pairwise
distinct. -/
theorem groupOf_nokey_singleton (results : List ResultRec) (r1 : ResultRec)
    (h1 : r1 ∈ results) (hk1 : r1.analysis.topic_key = none)
    (hdist : results.Pairwise (fun a c => a.article_index ≠ c.article_index))
    (hnc : ∀ r ∈ results, ∀ i : Nat,
      r.analysis.topic_key ≠ some ("unknown_" ++ Nat.repr i)) :
    groupOf results (topicKeyOf r1) = [r1] := by
  have hkey1 : topicKeyOf r1 = "unknown_" ++ Nat.repr r1.article_index := by
    simp [topicKeyOf, hk1]
  have huniq : ∀ x ∈ results, topicKeyOf x = topicKeyOf r1 → x = r1 := by
    intro x hx hkx
    cases hkx2 : x.analysis.topic_key with
    | some s =>
      exfalso
      have hsx : topicKeyOf x = s := by simp [topicKeyOf, hkx2]
      apply hnc x hx r1.article_index
      rw [hkx2, ← hsx, hkx, hkey1]
    | none =>
      have hkeyx : topicKeyOf x = "unknown_" ++ Nat.repr x.article_index := by
        simp [topicKeyOf, hkx2]
      have hrepr : Nat.repr x.article_index = Nat.repr r1.article_index :=
        string_append_left_cancel (by rw [← hkeyx, ← hkey1, hkx])
      have hidx : x.article_index = r1.article_index := natRepr_injective hrepr
      by_contra hne
      exact hdist.forall (fun a c h => Ne.symm h) hx h1 hne hidx
  have hr1g : r1 ∈ groupOf results (topicKeyOf r1) :=
    List.mem_filter.mpr ⟨h1, beq_iff_eq.mpr rfl⟩
  have hall : ∀ x ∈ groupOf results (topicKeyOf r1), r1 = x := by
    intro x hx
    have hm := List.mem_filter.mp hx
    exact (huniq x hm.1 (beq_iff_eq.mp hm.2)).symm
  have hcount_le : (groupOf results (topicKeyOf r1)).count r1 ≤ results.count r1 :=
    (List.filter_sublist results).count_le r1
  have hcount1 : results.count r1 ≤ 1 :=
    List.nodup_iff_count_le_one.mp (nodup_of_index_pairwise hdist) r1
  have hlen : (groupOf results (topicKeyOf r1)).length = 1 := by
    have hcg : (groupOf results (topicKeyOf r1)).count r1 =
        (groupOf results (topicKeyOf r1)).length := List.count_eq_length.mpr hall
    have hpos : 0 < (groupOf results (topicKeyOf r1)).length := List.length_pos.mpr
      (List.ne_nil_of_mem hr1g)
    omega
  obtain ⟨x, hx⟩ := List.length_eq_one.mp hlen
  rw [hx]
  have : r1 = x := hall x (by rw [hx]; exact List.mem_singleton_self x)
  rw [this]

/-- C2 counterexample: two distinct articles both carrying the present
parse-failure sentinel `topic_key = "unknown"` are merged into a single
group, and only one representative survives deduplication — the claim that
each failed article keeps its own singleton group fails. -/
theorem C2_counterexample :
    rFail1.analysis.topic_key = some "unknown" ∧
    rFail2.analysis.topic_key = some "unknown" ∧
    rFail1 ≠ rFail2 ∧
    deduplicate_results [rFail1, rFail2] = [rFail1] := by
  decide

/-- C2 (amended): an article whose `topic_key` entry is absent is placed in
its own singleton group keyed `"unknown_<sequence index>"`, so two such
articles always both survive deduplication (provided indices are pairwise
distinct and no present topic key collides with a synthesized key).
Articles with a present sentinel key such as `"unknown"` or `"error"`
share that key and are merged, as `C2_counterexample` shows. -/
theorem C2_amended_absent_keys_singleton (results : List ResultRec)
    (r1 r2 : ResultRec)
    (h1 : r1 ∈ results) (h2 : r2 ∈ results)
    (hk1 : r1.analysis.topic_key = none) (hk2 : r2.analysis.topic_key = none)
    (hne : r1.article_index ≠ r2.article_index)
    (hdist : results.Pairwise (fun a c => a.article_index ≠ c.article_index))
    (hnc : ∀ r ∈ results, ∀ i : Nat,
      r.analysis.topic_key ≠ some ("unknown_" ++ Nat.repr i)) :
    groupOf results (topicKeyOf r1) = [r1] ∧
    groupOf results (topicKeyOf r2) = [r2] ∧
    r1 ∈ deduplicate_results results ∧ r2 ∈ deduplicate_results results ∧
    r1 ≠ r2 := by
  have hg1 := groupOf_nokey_singleton results r1 h1 hk1 hdist hnc
  have hg2 := groupOf_nokey_singleton results r2 h2 hk2 hdist hnc
  refine ⟨hg1, hg2, ?_, ?_, fun heq => hne (congrArg ResultRec.article_index heq)⟩
  · refine List.mem_filterMap.mpr ⟨topicKeyOf r1, mem_dedupKeys h1, ?_⟩
    rw [hg1]
    simp [List.insertionSort, List.orderedInsert]
  · refine List.mem_filterMap.mpr ⟨topicKeyOf r2, mem_dedupKeys h2, ?_⟩
    rw [hg2]
    simp [List.insertionSort, List.orderedInsert]

/-- Witness for `C2_amended_absent_keys_singleton`: two absent-key records
both survive deduplication. -/
theorem C2_amended_witness :
    rNoKey1 ∈ deduplicate_results [rNoKey1, rNoKey2] ∧
    rNoKey2 ∈ deduplicate_results [rNoKey1, rNoKey2] := by
  have h := C2_amended_absent_keys_singleton [rNoKey1, rNoKey2] rNoKey1 rNoKey2
    (by decide) (by decide) (by decide) (by decide) (by decide) (by decide)
    (by intro r hr i
        rcases List.mem_cons.mp hr with rfl | hr2
        · simp [rNoKey1, noKeyClass]
        · rcases List.mem_cons.mp hr2 with rfl | hr3
          · simp [rNoKey2, noKeyClass]
          · cases hr3)
  exact ⟨h.2.2.1, h.2.2.2.1⟩

/-! ### Claim theorems: Publication Orderer -/

/-- C6: a technology-flagged record always gets sort rank 9, strictly
above every region rank in the table; it is grouped under the "Tech News"
bucket (never the "China" bucket, whatever its `main_location`), and the
grouped output places that bucket after all records of the non-tech
buckets. -/
theorem C6_tech_bucket_last (selected : List ResultRec) (r : ResultRec)
    (hr : r ∈ selected) (htech : r.analysis.is_tech_news = true) :
    (get_sort_key r).1 = 9 ∧
    (∀ kv ∈ location_order, kv.1 ≠ "Tech" → kv.2 < 9) ∧
    display_location (normalizeResult r) = "Tech News" ∧
    normalizeResult r ∈
      (sorted_selected selected).filter (fun x => display_location x == "Tech News") ∧
    normalizeResult r ∉
      (sorted_selected selected).filter (fun x => display_location x == "China") ∧
    ∃ pre, grouped_output selected =
        pre ++ (sorted_selected selected).filter (fun x => display_location x == "Tech News") ∧
      ∀ x ∈ pre, x.analysis.is_tech_news = false := by
  have htech' : (normalizeResult r).analysis.is_tech_news = true := by
    simpa [normalizeResult] using htech
  have hdisp : display_location (normalizeResult r) = "Tech News" := by
    simp [display_location, htech']
  have hmem : normalizeResult r ∈ sorted_selected selected :=
    (List.perm_insertionSort orderLE _).symm.subset
      (List.mem_map_of_mem normalizeResult hr)
  refine ⟨by simp [get_sort_key, htech], by decide, hdisp, ?_, ?_, ?_⟩
  · exact List.mem_filter.mpr ⟨hmem, beq_iff_eq.mpr hdisp⟩
  · intro hin
    have := beq_iff_eq.mp (List.mem_filter.mp hin).2
    rw [hdisp] at this
    exact absurd this (by decide)
  · refine ⟨(["United States", "Russia", "Europe", "Middle East", "Southeast Asia",
        "Japan", "Korea", "China", "Others"] : List String).flatMap
        (fun loc => (sorted_selected selected).filter
          (fun x => display_location x == loc)), ?_, ?_⟩
    · show location_display_order.flatMap _ = _
      rw [show location_display_order =
        (["United States", "Russia", "Europe", "Middle East", "Southeast Asia",
          "Japan", "Korea", "China", "Others"] : List String) ++ ["Tech News"] from rfl]
      rw [List.flatMap_append]
      simp
    · intro x hx
      obtain ⟨loc, hloc, hxf⟩ := List.mem_flatMap.mp hx
      have hxd : display_location x = loc := beq_iff_eq.mp (List.mem_filter.mp hxf).2
      cases hxt : x.analysis.is_tech_news with
      | false => rfl
      | true =>
        exfalso
        have : display_location x = "Tech News" := by simp [display_location, hxt]
        rw [this] at hxd
        have hall : ∀ loc2 ∈ (["United States", "Russia", "Europe", "Middle East",
            "Southeast Asia", "Japan", "Korea", "China", "Others"] : List String),
            loc2 ≠ "Tech News" := by decide
        exact hall loc hloc hxd.symm

/-- Witness for `C6_tech_bucket_last`: a tech-flagged record with
`main_location = "China"` lands in the "Tech News" bucket and the grouped
output emits it after the non-tech records. -/
theorem C6_witness :
    (recTechChina.analysis.is_tech_news = true ∧
      recTechChina.analysis.main_location = some "China" ∧
      grouped_output [recUS, recTechChina] =
        [normalizeResult recUS, normalizeResult recTechChina]) ∧
    ((get_sort_key recTechChina).1 = 9 ∧
      display_location (normalizeResult recTechChina) = "Tech News" ∧
      normalizeResult recTechChina ∈
        (sorted_selected [recUS, recTechChina]).filter
          (fun x => display_location x == "Tech News")) := by
  refine ⟨by decide, ?_⟩
  have h := C6_tech_bucket_last [recUS, recTechChina] recTechChina (by decide) (by decide)
  exact ⟨h.1, h.2.2.1, h.2.2.2.1⟩

/-! ### Claim theorems: Classification Oracle Adapter -/

/-- C3 counterexample: on the response text `"{not json}"` a payload IS
found by the regex but cannot be decoded (`json.loads` raises), so no
structured payload is decodable from the response; the claim then requires
the `"unknown"` sentinel, but the raised decode error reaches the generic
`except` handler and the function returns the `"error"` sentinel with the
decode error embedded in the recommendation — with no transport/service
error having occurred. -/
theorem C3_counterexample :
    jsonSearch "{not json}" = some "{not json}" ∧
    failDecode "{not json}" = Except.error "Expecting value: line 1 column 2 (char 1)" ∧
    analyze_article_with_kimi (.responded "{not json}") failDecode =
      errorFallbackClass "Expecting value: line 1 column 2 (char 1)" ∧
    (analyze_article_with_kimi (.responded "{not json}") failDecode).topic_key ≠
      some "unknown" := by
  refine ⟨by decide, rfl, by decide, by decide⟩

/-- C3 (amended): `analyze_article_with_kimi` is total on every call
outcome and decoder behaviour and returns a complete zero fallback on any
failure — `topic_key = "unknown"` exactly when the response text contains
no brace-delimited payload candidate, and `topic_key = "error"` (with the
error detail in the recommendation) both when the call raises a
transport/service error and when a found payload fails to decode; a
successfully decoded payload is returned with `main_location`
normalized. -/
theorem C3_amended_fallbacks (call : CallOutcome)
    (jsonLoads : String → Except String Classification) :
    (∀ e, call = .raised e →
      analyze_article_with_kimi call jsonLoads = errorFallbackClass e) ∧
    (∀ text, call = .responded text → jsonSearch text = none →
      analyze_article_with_kimi call jsonLoads = unknownFallbackClass) ∧
    (∀ text j e, call = .responded text → jsonSearch text = some j →
      jsonLoads j = .error e →
      analyze_article_with_kimi call jsonLoads = errorFallbackClass e) ∧
    (∀ text j a, call = .responded text → jsonSearch text = some j →
      jsonLoads j = .ok a →
      analyze_article_with_kimi call jsonLoads =
        { a with main_location := a.main_location.map normalize_location }) := by
  refine ⟨?_, ?_, ?_, ?_⟩
  · rintro e rfl
    rfl
  · rintro text rfl hsearch
    simp [analyze_article_with_kimi, hsearch, unknownFallbackClass]
  · rintro text j e rfl hsearch hload
    simp [analyze_article_with_kimi, hsearch, hload, errorFallbackClass]
  · rintro text j a rfl hsearch hload
    simp [analyze_article_with_kimi, hsearch, hload]

/-- Witness for `C3_amended_fallbacks` on concrete calls and decoders:
each failure shape produces its complete fallback record, and a decoded
payload is normalized. -/
theorem C3_witness :
    analyze_article_with_kimi (.raised "Connection aborted") failDecode =
      errorFallbackClass "Connection aborted" ∧
    analyze_article_with_kimi (.responded "no payload here") failDecode =
      unknownFallbackClass ∧
    analyze_article_with_kimi (.responded "{not json}") failDecode =
      errorFallbackClass "Expecting value: line 1 column 2 (char 1)" ∧
    analyze_article_with_kimi (.responded "{ok}") (fun _ => .ok (classWith 20 "k")) =
      { classWith 20 "k" with
        main_location := (classWith 20 "k").main_location.map normalize_location } :=
  ⟨(C3_amended_fallbacks (.raised "Connection aborted") failDecode).1
      "Connection aborted" rfl,
   (C3_amended_fallbacks (.responded "no payload here") failDecode).2.1
      "no payload here" rfl (by decide),
   (C3_amended_fallbacks (.responded "{not json}") failDecode).2.2.1
      "{not json}" "{not json}" "Expecting value: line 1 column 2 (char 1)"
      rfl (by decide) rfl,
   (C3_amended_fallbacks (.responded "{ok}") (fun _ => .ok (classWith 20 "k"))).2.2.2
      "{ok}" "{ok}" (classWith 20 "k") rfl (by decide) rfl⟩
